import Mathlib

/-! tgCircleGen: metadata resolution of `main.go`.

A shallow embedding of the pure text-processing core of `src/main.go`:
the title/artist extraction and the video-URL rewriting of `parseSongLink`,
the merge of the embed stage with the page scraper in `main`, the
composition of the display text and of the file base text, and
`sanitizeFilename`.

Go strings are modelled as lists of Unicode code points (`Str`).  The strings
that reach this code are decoded from JSON or HTML and are valid UTF-8; on
valid UTF-8 the byte-wise substring functions of package `strings` agree with
the code-point-wise ones because UTF-8 is self-synchronising.
-/

namespace TgCircleGen

/-- A Go string, as its sequence of code points. -/
abbrev Str := List Char

/-! ## Package `strings` -/

/-- Go `unicode.IsSpace`: the Latin-1 spaces and the code points with the
Unicode White_Space property. -/
def isSpace (c : Char) : Bool :=
  let n := c.toNat
  (9 ≤ n && n ≤ 13) || n == 32 || n == 0x85 || n == 0xA0 || n == 0x1680 ||
  (0x2000 ≤ n && n ≤ 0x200A) || n == 0x2028 || n == 0x2029 || n == 0x202F ||
  n == 0x205F || n == 0x3000

/-- Drop the white space at the end of a string. -/
def trimRight (s : Str) : Str := (s.reverse.dropWhile isSpace).reverse

/-- Go `strings.TrimSpace`. -/
def trimSpace (s : Str) : Str := trimRight (s.dropWhile isSpace)

/-- Go `strings.HasPrefix s p`. -/
def hasPrefix (s p : Str) : Bool := p.isPrefixOf s

/-- Go `strings.HasSuffix s p`. -/
def hasSuffix (s p : Str) : Bool := p.reverse.isPrefixOf s.reverse

/-- Go `strings.TrimPrefix s p`. -/
def trimPrefix (s p : Str) : Str := if hasPrefix s p then s.drop p.length else s

/-- Go `strings.TrimSuffix s p`. -/
def trimSuffix (s p : Str) : Str :=
  if hasSuffix s p then s.take (s.length - p.length) else s

/-- Go `strings.Contains s sub`. -/
def contains : Str → Str → Bool
  | [], sub => sub.isEmpty
  | c :: s, sub => sub.isPrefixOf (c :: s) || contains s sub

/-- The two parts of `s` around the first occurrence of `sep`, if `sep` occurs
(Go `strings.Cut`; `sep` is a non-empty literal at every call site). -/
def cut : Str → Str → Option (Str × Str)
  | [], _ => none
  | c :: s, sep =>
    if sep.isPrefixOf (c :: s) then some ([], (c :: s).drop sep.length)
    else (cut s sep).map fun p => (c :: p.1, p.2)

/-- Go `strings.SplitN s sep 2` for a non-empty `sep`: the text before and
after the first occurrence of `sep`, or `s` alone when `sep` does not occur. -/
def splitN2 (s sep : Str) : List Str :=
  match cut s sep with
  | some (a, b) => [a, b]
  | none => [s]

/-- Go `strings.Split s sep` for a non-empty `sep`, cutting at most `fuel`
times. -/
def splitFuel (sep : Str) : Nat → Str → List Str
  | 0, s => [s]
  | fuel + 1, s =>
    match cut s sep with
    | some (a, b) => a :: splitFuel sep fuel b
    | none => [s]

/-- Go `strings.Split s sep` for a non-empty `sep`: every cut shortens the
rest, so `s.length` cuts are enough. -/
def split (s sep : Str) : List Str := splitFuel sep s.length s

/-- Worker of `replaceAll`: `skip` counts the characters of the occurrence
being replaced that are still to be passed over. -/
def replaceAllAux (old new : Str) : Nat → Str → Str
  | _, [] => []
  | skip + 1, _ :: s => replaceAllAux old new skip s
  | 0, c :: s =>
    if old.isPrefixOf (c :: s) then new ++ replaceAllAux old new (old.length - 1) s
    else c :: replaceAllAux old new 0 s

/-- Go `strings.ReplaceAll s old new` for a non-empty `old`: the
non-overlapping occurrences of `old`, found from left to right, are replaced
by `new`. -/
def replaceAll (s old new : Str) : Str := replaceAllAux old new 0 s

/-- Go `strings.Replace s old new 1` for a non-empty `old`: the first
occurrence only. -/
def replaceFirst (old new : Str) : Str → Str
  | [] => []
  | c :: s =>
    if old.isPrefixOf (c :: s) then new ++ (c :: s).drop old.length
    else c :: replaceFirst old new s

/-- Go `unicode.SimpleFold` on the orbits of the ASCII letters, the only
orbits `equalFold` walks when one of its arguments is an ASCII literal:
`K k U+212A`, `S s U+017F`, and upper/lower case for the other letters. -/
def simpleFold (c : Char) : Char :=
  if c = 'K' then 'k'
  else if c = 'k' then Char.ofNat 0x212A
  else if c = Char.ofNat 0x212A then 'K'
  else if c = 'S' then 's'
  else if c = 's' then Char.ofNat 0x17F
  else if c = Char.ofNat 0x17F then 'S'
  else if 'A' ≤ c ∧ c ≤ 'Z' then Char.ofNat (c.toNat + 32)
  else if 'a' ≤ c ∧ c ≤ 'z' then Char.ofNat (c.toNat - 32)
  else c

/-- One step of Go `strings.EqualFold`: are the two code points equal under
simple case folding?  `lo` is the smaller of the two. -/
def foldEqChar (a b : Char) : Bool :=
  if a = b then true
  else
    let lo := if b < a then b else a
    let hi := if b < a then a else b
    if hi.toNat < 128 then
      decide ('A' ≤ lo ∧ lo ≤ 'Z') && hi.toNat == lo.toNat + 32
    else
      let r1 := simpleFold lo
      if r1 = lo ∨ ¬ r1 < hi then r1 == hi
      else
        let r2 := simpleFold r1
        if r2 = lo ∨ ¬ r2 < hi then r2 == hi
        else simpleFold r2 == hi

/-- Go `strings.EqualFold s t`, exact whenever `t` is an ASCII string. -/
def equalFold : Str → Str → Bool
  | [], [] => true
  | a :: s, b :: t => foldEqChar a b && equalFold s t
  | _, _ => false

/-! ## `parseSongLink`: title and artist (lines 91-124) -/

/-- Lines 97-110 of `parseSongLink`: the song title when the author is taken
as the artist and the trimmed title `rawTitle` is not empty. -/
def titleWithoutArtist (rawTitle artist : Str) : Str :=
  if contains rawTitle artist then
    let tempTitle := trimSpace (replaceAll rawTitle artist [])
    let tempTitle := trimPrefix tempTitle " - ".data
    let tempTitle := trimPrefix tempTitle "- ".data
    let tempTitle := trimSuffix tempTitle " - ".data
    let tempTitle := trimSuffix tempTitle " -".data
    if tempTitle ≠ [] then tempTitle else rawTitle
  else rawTitle

/-- Lines 98-102 of `parseSongLink`: the value of `tempTitle` when line 103
tests it. -/
def excisedTitle (rawTitle artist : Str) : Str :=
  let tempTitle := trimSpace (replaceAll rawTitle artist [])
  let tempTitle := trimPrefix tempTitle " - ".data
  let tempTitle := trimPrefix tempTitle "- ".data
  let tempTitle := trimSuffix tempTitle " - ".data
  let tempTitle := trimSuffix tempTitle " -".data
  tempTitle

/-- Lines 94-121 of `parseSongLink`: `(title, artist)` before the final
suffix strip, from the trimmed title and author. -/
def splitTitleArtist (rawTitle rawAuthor : Str) : Str × Str :=
  if rawAuthor ≠ [] ∧ equalFold rawAuthor "youtube".data = false ∧
      equalFold rawAuthor "soundcloud".data = false ∧
      equalFold rawAuthor "spotify".data = false ∧
      contains rawAuthor "Topic".data = false then
    (if rawTitle ≠ [] then titleWithoutArtist rawTitle rawAuthor else [], rawAuthor)
  else if rawTitle ≠ [] then
    match splitN2 rawTitle " - ".data with
    | [a, b] => (trimSpace b, trimSpace a)
    | _ => (rawTitle, [])
  else ([], [])

/-- Lines 91-124 of `parseSongLink`: the `(title, artist)` returned for a
decoded response with the given `title` and `author_name`. -/
def parseSongLinkNames (title authorName : Str) : Str × Str :=
  let rawOembedTitle := trimSpace title
  let rawOembedAuthor := trimSpace authorName
  let r := splitTitleArtist rawOembedTitle rawOembedAuthor
  (r.1, if r.2 ≠ [] then trimSuffix r.2 " - Topic".data else r.2)

/-- The extraction of `parseSongLinkNames` with the suffix strip of lines
122-124 removed: the pair computed by lines 91-121 is returned as it is. -/
def parseSongLinkNamesNoStrip (title authorName : Str) : Str × Str :=
  let rawOembedTitle := trimSpace title
  let rawOembedAuthor := trimSpace authorName
  splitTitleArtist rawOembedTitle rawOembedAuthor

/-! ## `parseSongLink`: video URL (lines 126-154) -/

/-- Lines 132-146 of `parseSongLink`: the URL kept from `captured`, the text
captured by group 1 of the regular expression in the embed markup. -/
def canonicalWatchURL (captured : Str) : Str :=
  if contains captured "/embed/".data then
    let extracted := replaceFirst "/embed/".data "/watch?v=".data captured
    if contains extracted "?".data then
      match splitN2 extracted "?".data with
      | [base, query] =>
        match (split query "&".data).find? fun param => hasPrefix param "v=".data with
        | some param => base ++ "?".data ++ param
        | none => extracted
      | _ => extracted
    else extracted
  else captured

/-- Lines 126-154 of `parseSongLink`: the video URL returned.  `captured` is
group 1 of the first match of the regular expression in the `html` field,
`none` when that field is empty or has no match. -/
def parseSongLinkURL (captured : Option Str) (providerURL : Str) : Str :=
  let extractedYoutubeURL :=
    match captured with
    | some u => canonicalWatchURL u
    | none => []
  if extractedYoutubeURL = [] ∧ providerURL ≠ [] ∧
      (contains providerURL "youtube.com".data = true ∨
        contains providerURL "youtu.be".data = true) then providerURL
  else extractedYoutubeURL

/-! ## `main`: merge of the two stages (lines 618-681) -/

/-- The metadata `main` ends up with. -/
structure Resolved where
  artist : Str
  title : Str
  videoURL : Str
  deriving DecidableEq, Repr

/-- Lines 646-663 of `main`: `(title, artist)` read off the raw combined text
of the page scraper. -/
def namesFromRawText (rawTextFromHTML : Str) : Str × Str :=
  let r : Str × Str :=
    match splitN2 rawTextFromHTML " by ".data with
    | [t, a] => (trimSpace t, trimSpace a)
    | _ =>
      match splitN2 rawTextFromHTML " - ".data with
      | [a, t] => (trimSpace t, trimSpace a)
      | _ => (rawTextFromHTML, [])
  (r.1, if r.2 ≠ [] then trimSpace (trimSuffix r.2 " - Topic".data) else r.2)

/-- Lines 623-675 of `main`.  The first three arguments are what
`parseSongLink` returned (three empty strings when it failed); `html` is what
`parseSongLinkHTML` returns when it is called: `none` for an error, else the
raw combined text and the video URL. -/
def resolveMetadata (oembedTitle oembedArtist oembedYoutubeURL : Str)
    (html : Option (Str × Str)) : Resolved :=
  let finalArtist := trimSpace oembedArtist
  let finalTitle := trimSpace oembedTitle
  let finalYoutubeURL := oembedYoutubeURL
  if finalYoutubeURL = [] ∨ (finalTitle = [] ∧ finalArtist = []) then
    match html with
    | none => ⟨finalArtist, finalTitle, finalYoutubeURL⟩
    | some (rawTextFromHTML, htmlYoutubeURL) =>
      let url := if finalYoutubeURL = [] ∧ htmlYoutubeURL ≠ [] then htmlYoutubeURL
        else finalYoutubeURL
      if (finalTitle = [] ∧ finalArtist = []) ∧ rawTextFromHTML ≠ [] then
        let parsed := namesFromRawText rawTextFromHTML
        ⟨if finalArtist = [] ∧ parsed.2 ≠ [] then parsed.2 else finalArtist,
          if finalTitle = [] ∧ parsed.1 ≠ [] then parsed.1 else finalTitle, url⟩
      else ⟨finalArtist, finalTitle, url⟩
  else ⟨finalArtist, finalTitle, finalYoutubeURL⟩

/-- Lines 677-681 of `main`: the URL handed to the downloader. -/
def downloadURL (finalYoutubeURL urlArg : Str) : Str :=
  if finalYoutubeURL = [] then urlArg else finalYoutubeURL

/-! ## `main`: display text and file name (lines 683-721) -/

/-- The characters `markdownV2Replacer` puts a backslash in front of. -/
def markdownV2Special : List Char :=
  ['_', '*', '[', ']', '(', ')', '~', '\x60', '>', '#', '+', '-', '=', '|', '\x7b', '\x7d',
    '.', '!']

/-- The function `escapeMarkdownV2`. -/
def escapeMarkdownV2 (text : Str) : Str :=
  text.flatMap fun c => if c ∈ markdownV2Special then ['\\', c] else [c]

/-- The two texts composed by lines 683-708 of `main`. -/
structure Presentation where
  linkDisplayText : Str
  filenameBaseText : Str
  deriving DecidableEq, Repr

/-- Lines 683-708 of `main`.  `songname` and `authorname` are the two override
flags, `timestamp` is `time.Now().Unix()`. -/
def presentation (songname authorname finalTitle finalArtist urlArg : Str)
    (timestamp : Int) : Presentation :=
  if songname ≠ [] ∧ authorname ≠ [] then
    ⟨"\"".data ++ songname ++ "\" by ".data ++ authorname,
      songname ++ " by ".data ++ authorname⟩
  else if finalTitle ≠ [] ∧ finalArtist ≠ [] then
    ⟨"\"".data ++ finalTitle ++ "\" by ".data ++ finalArtist,
      finalTitle ++ " by ".data ++ finalArtist⟩
  else if finalTitle ≠ [] then
    ⟨"\"".data ++ finalTitle ++ "\"".data, finalTitle⟩
  else if finalArtist ≠ [] then
    ⟨"Unknown Song by ".data ++ finalArtist, finalArtist⟩
  else
    ⟨escapeMarkdownV2 urlArg, "track_".data ++ (toString timestamp).data⟩

/-- The function `sanitizeFilename` (lines 365-377). -/
def sanitizeFilename (s : Str) : Str :=
  let s := replaceAll s " ".data "_".data
  let s := replaceAll s "/".data "_".data
  let s := replaceAll s "\\".data "_".data
  let s := replaceAll s ":".data []
  let s := replaceAll s "*".data []
  let s := replaceAll s "?".data []
  let s := replaceAll s "\"".data []
  let s := replaceAll s "<".data []
  let s := replaceAll s ">".data []
  let s := replaceAll s "|".data []
  s

/-- Lines 718-721 of `main`: the base of the file names. -/
def filenameBase (filenameBaseText : Str) (timestamp : Int) : Str :=
  let base := sanitizeFilename filenameBaseText
  if base = [] ∨ base = "_".data then
    "track_".data ++ (toString timestamp).data ++ "_fallback".data
  else base

/-! ## `parseSongLinkHTML`: title from the document tree (lines 187-283) -/

/-- The node types of package `golang.org/x/net/html`. -/
inductive NodeType where
  | ErrorNode
  | TextNode
  | DocumentNode
  | ElementNode
  | CommentNode
  | DoctypeNode
  | RawNode
  deriving DecidableEq, Repr

/-- An attribute of an element (`html.Attribute`, without its namespace). -/
structure Attribute where
  key : Str
  val : Str
  deriving DecidableEq, Repr

/-- A node of the parsed document (`html.Node`): type, data, attributes and
the children from `FirstChild` along `NextSibling`. -/
inductive Node where
  | mk (type : NodeType) (data : Str) (attr : List Attribute) (children : List Node)

mutual
/-- The function `extractTextFromNode` (lines 304-322) on a node. -/
def extractTextFromNode : Node → Str
  | .mk type data _ children =>
    if type = NodeType.TextNode then trimSpace data
    else trimSpace (extractTextFromNodes children [])
/-- The loop of `extractTextFromNode` over the children; `sb` is the text
built so far. -/
def extractTextFromNodes : List Node → Str → Str
  | [], sb => sb
  | c :: cs, sb =>
    let text := extractTextFromNode c
    extractTextFromNodes cs
      (if text ≠ [] then (if sb.length > 0 then sb ++ " ".data else sb) ++ text else sb)
end

/-- The value of the first attribute with key "class", empty when there is
none (lines 239-245 and 249-255). -/
def classValue (attr : List Attribute) : Str :=
  match attr.find? fun a => a.key = "class".data with
  | some a => a.val
  | none => []

/-- Is the node a `div` element? -/
def isDiv : Node → Bool
  | .mk type data _ _ => type = NodeType.ElementNode ∧ data = "div".data

/-- The attributes of a node. -/
def Node.attrs : Node → List Attribute
  | .mk _ _ attr _ => attr

/-- The variables `ogVideoURL` and `ogTitleFull` of `parseSongLinkHTML`. -/
structure MetaTags where
  ogVideoURL : Str
  ogTitleFull : Str
  deriving DecidableEq, Repr

/-- What the loop of lines 197-209 has seen of one `meta` element. -/
structure MetaAttrs where
  contentVal : Str
  isOgTitle : Bool
  isOgVideo : Bool

/-- One step of the loop of lines 197-209. -/
def metaAttrStep (m : MetaAttrs) (a : Attribute) : MetaAttrs :=
  let m :=
    if a.key = "property".data then
      if a.val = "og:title".data then { m with isOgTitle := true }
      else if a.val = "og:video:url".data ∨ a.val = "og:video:secure_url".data then
        { m with isOgVideo := true }
      else m
    else m
  if a.key = "content".data then { m with contentVal := a.val } else m

/-- Lines 193-216: what one node adds to the two variables. -/
def metaTagsOfNode (type : NodeType) (data : Str) (attr : List Attribute) (st : MetaTags) :
    MetaTags :=
  if type = NodeType.ElementNode ∧ data = "meta".data then
    let m := attr.foldl metaAttrStep ⟨[], false, false⟩
    let st := if m.isOgTitle = true ∧ m.contentVal ≠ [] then { st with ogTitleFull := m.contentVal }
      else st
    if m.isOgVideo = true ∧ m.contentVal ≠ [] ∧
        (contains m.contentVal "youtube.com".data = true ∨
          contains m.contentVal "youtu.be".data = true) then
      { st with ogVideoURL := m.contentVal }
    else st
  else st

mutual
/-- The closure `traverseMetaTags` (lines 192-220), with its two variables
passed along. -/
def traverseMetaTags : Node → MetaTags → MetaTags
  | .mk type data attr children, st =>
    traverseMetaTagsIn children (metaTagsOfNode type data attr st)
/-- The loop of lines 217-219 over the children. -/
def traverseMetaTagsIn : List Node → MetaTags → MetaTags
  | [], st => st
  | c :: cs, st => traverseMetaTagsIn cs (traverseMetaTags c st)
end

/-- The variables `divTitle` and `divArtist` declared at line 234, outside the
closure `findSpecificDivs`, and the result `rawFullTitle`. -/
structure DivSearch where
  divTitle : Str
  divArtist : Str
  rawFullTitle : Str
  deriving DecidableEq, Repr

/-- The loop of lines 247-263 over the children of a container. -/
def scanContainerChildren : List Node → DivSearch → DivSearch
  | [], st => st
  | c :: cs, st =>
    if isDiv c = true then
      let childClassValue := classValue c.attrs
      let st :=
        if st.divTitle = [] ∧ contains childClassValue "e12n0mv61".data = true then
          { st with divTitle := extractTextFromNode c }
        else st
      let st :=
        if st.divArtist = [] ∧ contains childClassValue "e12n0mv60".data = true then
          { st with divArtist := extractTextFromNode c }
        else st
      scanContainerChildren cs st
    else scanContainerChildren cs st

mutual
/-- The closure `findSpecificDivs` (lines 237-281): the value returned and the
variables afterwards. -/
def findSpecificDivs : Node → DivSearch → Bool × DivSearch
  | .mk type data attr children, st =>
    if type = NodeType.ElementNode ∧ data = "div".data ∧
        contains (classValue attr) "e12n0mv62".data = true then
      let st := scanContainerChildren children st
      if st.divTitle ≠ [] ∧ st.divArtist ≠ [] then
        (true, { st with rawFullTitle := st.divTitle ++ " by ".data ++ st.divArtist })
      else if st.divTitle ≠ [] then (true, { st with rawFullTitle := st.divTitle })
      else findSpecificDivsIn children st
    else findSpecificDivsIn children st
/-- The loop of lines 275-279 over the children. -/
def findSpecificDivsIn : List Node → DivSearch → Bool × DivSearch
  | [], st => (false, st)
  | c :: cs, st =>
    match findSpecificDivs c st with
    | (true, st) => (true, st)
    | (false, st) => findSpecificDivsIn cs st
end

/-- Lines 187-283 of `parseSongLinkHTML`: the raw combined text read off the
parsed document `doc`. -/
def parseSongLinkHTMLTitle (doc : Node) : Str :=
  let rawFullTitle := (traverseMetaTags doc ⟨[], []⟩).ogTitleFull
  if rawFullTitle = [] then (findSpecificDivs doc ⟨[], [], rawFullTitle⟩).2.rawFullTitle
  else rawFullTitle

/-- Is the node a container `div` (class containing "e12n0mv62") with a direct
`div` child whose class contains "e12n0mv61" and a direct `div` child whose
class contains "e12n0mv60"? -/
def isContainerWithBoth : Node → Bool
  | .mk type data attr children =>
    decide (type = NodeType.ElementNode ∧ data = "div".data) &&
    contains (classValue attr) "e12n0mv62".data &&
    children.any (fun c => isDiv c && contains (classValue c.attrs) "e12n0mv61".data) &&
    children.any (fun c => isDiv c && contains (classValue c.attrs) "e12n0mv60".data)

mutual
/-- Does the tree hold a container with both a title child and an artist
child, as C12 says of every tree that yields a combined text? -/
def hasContainerWithBoth : Node → Bool
  | .mk type data attr children =>
    isContainerWithBoth (.mk type data attr children) || hasContainerWithBothIn children
/-- The same over a list of nodes. -/
def hasContainerWithBothIn : List Node → Bool
  | [] => false
  | c :: cs => hasContainerWithBoth c || hasContainerWithBothIn cs
end

/-- A parsed page with two containers: the first has an artist child only,
the second a title child only.  It is the tree of the page whose body is
`<div class="css-1 e12n0mv62"><div class="css-2 e12n0mv60">Artist One</div></div>`
followed by
`<div class="css-1 e12n0mv62"><div class="css-3 e12n0mv61">Title Two</div></div>`. -/
def docTwoContainers : Node :=
  .mk .DocumentNode [] []
    [.mk .ElementNode "html".data []
      [.mk .ElementNode "head".data [] [],
        .mk .ElementNode "body".data []
          [.mk .ElementNode "div".data [⟨"class".data, "css-1 e12n0mv62".data⟩]
              [.mk .ElementNode "div".data [⟨"class".data, "css-2 e12n0mv60".data⟩]
                [.mk .TextNode "Artist One".data [] []]],
            .mk .ElementNode "div".data [⟨"class".data, "css-1 e12n0mv62".data⟩]
              [.mk .ElementNode "div".data [⟨"class".data, "css-3 e12n0mv61".data⟩]
                [.mk .TextNode "Title Two".data [] []]]]]]

/-! ## Facts about the `strings` model -/

theorem contains_iff_occurs (s sub : Str) : contains s sub = true ↔ sub <:+: s := by
  induction s with
  | nil =>
    cases sub with
    | nil => simp [contains]
    | cons x t => simp [contains]
  | cons c s ih =>
    rw [contains, Bool.or_eq_true, ih, List.isPrefixOf_iff_prefix, List.infix_cons_iff]

theorem contains_eq_false_iff (s sub : Str) : contains s sub = false ↔ ¬ sub <:+: s := by
  rw [← contains_iff_occurs, Bool.not_eq_true]

theorem cut_eq_none (s sep : Str) (h : contains s sep = false) : cut s sep = none := by
  induction s with
  | nil => rfl
  | cons c s ih =>
    rw [contains, Bool.or_eq_false_iff] at h
    simp [cut, h.1, ih h.2]

theorem trimRight_append_singleton (s : Str) (c : Char) (h : isSpace c = false) :
    trimRight (s ++ [c]) = s ++ [c] := by
  simp [trimRight, List.dropWhile_cons, h]

theorem trimRight_isPrefix (s : Str) : trimRight s <+: s := by
  unfold trimRight
  have h := List.dropWhile_suffix isSpace (l := s.reverse)
  rw [← List.reverse_prefix] at h
  simpa using h

theorem trimSpace_isInfix (s : Str) : trimSpace s <:+: s :=
  (trimRight_isPrefix _).isInfix.trans (List.dropWhile_suffix isSpace).isInfix

theorem suffix_dropWhile_append (p : Char → Bool) (l : Str) (c : Char) (t : Str)
    (h : p c = false) : (c :: t) <:+ (l ++ c :: t).dropWhile p := by
  induction l with
  | nil => simp [List.dropWhile_cons, h]
  | cons x l ih =>
    rw [List.cons_append, List.dropWhile_cons]
    split
    · exact ih
    · exact List.suffix_cons_iff.2 (Or.inr (List.suffix_append _ _))

theorem trimSpace_append_topic (C : Str) :
    "Topic".data <:+: trimSpace (C ++ " - Topic".data) := by
  have h : ('-' :: " Topic".data) <:+ ((C ++ [' ']) ++ '-' :: " Topic".data).dropWhile isSpace :=
    suffix_dropWhile_append isSpace _ _ _ (by decide)
  have e : (C ++ [' ']) ++ '-' :: " Topic".data = C ++ " - Topic".data := by simp
  rw [e] at h
  obtain ⟨pre, hpre⟩ := h
  have e2 : pre ++ '-' :: " Topic".data = (pre ++ "- Topi".data) ++ ['c'] := by simp
  unfold trimSpace
  rw [← hpre, e2, trimRight_append_singleton _ _ (by decide)]
  exact ⟨pre ++ "- ".data, [], by simp⟩

theorem cut_of_first (sep : Str) (hsep : sep ≠ []) (a b : Str)
    (hfirst : ¬ sep <:+: a ++ sep.dropLast) : cut (a ++ sep ++ b) sep = some (a, b) := by
  induction a with
  | nil =>
    obtain ⟨c, t, rfl⟩ := List.exists_cons_of_ne_nil hsep
    have hp : (c :: t).isPrefixOf (c :: (t ++ b)) = true :=
      List.isPrefixOf_iff_prefix.2 ⟨b, by simp⟩
    simp only [List.nil_append, List.cons_append, cut, hp, if_true]
    simp
  | cons x a ih =>
    have hnot : sep.isPrefixOf (x :: (a ++ sep ++ b)) = false := by
      rw [Bool.eq_false_iff]
      intro hp
      rw [List.isPrefixOf_iff_prefix] at hp
      apply hfirst
      have h2 : (x :: a ++ sep.dropLast) <+: (x :: (a ++ sep ++ b)) := by
        have h3 : sep.dropLast <+: sep ++ b :=
          (List.dropLast_prefix sep).trans (List.prefix_append sep b)
        have h4 := (List.prefix_append_right_inj (x :: a)).2 h3
        simpa using h4
      have hlen : sep.length ≤ (x :: a ++ sep.dropLast).length := by
        simp only [List.cons_append, List.length_cons, List.length_append, List.length_dropLast]
        omega
      exact (List.prefix_of_prefix_length_le hp h2 hlen).isInfix
    have hrec : ¬ sep <:+: a ++ sep.dropLast := fun h =>
      hfirst (by rw [List.cons_append, List.infix_cons_iff]; exact Or.inr h)
    show cut (x :: (a ++ sep ++ b)) sep = _
    rw [cut, hnot, ih hrec]
    simp

theorem cut_some_first (sep : Str) (hsep : sep ≠ []) (s a b : Str)
    (h : cut s sep = some (a, b)) : s = a ++ sep ++ b ∧ ¬ sep <:+: a ++ sep.dropLast := by
  induction s generalizing a with
  | nil => simp [cut] at h
  | cons c s ih =>
    rw [cut] at h
    split at h
    · rename_i hp
      simp only [Option.some.injEq, Prod.mk.injEq] at h
      obtain ⟨rfl, rfl⟩ := h
      rw [List.isPrefixOf_iff_prefix, List.prefix_iff_eq_append] at hp
      refine ⟨by simpa using hp.symm, fun hin => ?_⟩
      have := hin.length_le
      have hpos := List.length_pos.2 hsep
      simp only [List.nil_append, List.length_dropLast] at this
      omega
    · rename_i hp
      cases hc : cut s sep with
      | none => simp [hc] at h
      | some p =>
        obtain ⟨a1, b1⟩ := p
        simp only [hc, Option.map_some', Option.some.injEq, Prod.mk.injEq] at h
        obtain ⟨rfl, rfl⟩ := h
        obtain ⟨hs, hn⟩ := ih a1 hc
        refine ⟨by simp [hs], fun hin => ?_⟩
        rw [List.cons_append, List.infix_cons_iff] at hin
        rcases hin with hpre | hin
        · apply hp
          rw [List.isPrefixOf_iff_prefix]
          refine hpre.trans ?_
          rw [hs]
          have h3 : sep.dropLast <+: sep ++ b1 :=
            (List.dropLast_prefix sep).trans (List.prefix_append sep b1)
          have h4 := (List.prefix_append_right_inj (c :: a1)).2 h3
          simpa using h4
        · exact hn hin

theorem cut_ne_none (s sep : Str) (hsep : sep ≠ []) (h : contains s sep = true) :
    cut s sep ≠ none := by
  induction s with
  | nil => cases sep <;> simp_all [contains]
  | cons c s ih =>
    rw [contains, Bool.or_eq_true] at h
    rw [cut]
    split
    · simp
    · rename_i hp
      rcases h with h | h
      · exact absurd h hp
      · simpa using ih h

theorem hasSuffix_iff (s p : Str) : hasSuffix s p = true ↔ p <:+ s := by
  unfold hasSuffix
  rw [ List.isPrefixOf_iff_prefix, List.reverse_prefix]

theorem trimSuffix_of_not_occurs (s p q : Str) (hq : q <:+: p) (h : ¬ q <:+: s) :
    trimSuffix s p = s := by
  unfold trimSuffix
  split
  · rename_i hs
    exact absurd (hq.trans ((hasSuffix_iff s p).1 hs).isInfix) h
  · rfl

theorem not_space_ne (c : Char) (h : isSpace c = false) : c ≠ ' ' := by
  rintro rfl
  exact absurd h (by decide)

theorem trimSpace_head (s : Str) (hs : s ≠ []) (h : trimSpace s = s) :
    ∃ c t, s = c :: t ∧ isSpace c = false := by
  obtain ⟨c, t, rfl⟩ := List.exists_cons_of_ne_nil hs
  refine ⟨c, t, rfl, ?_⟩
  by_contra hc
  rw [Bool.not_eq_false] at hc
  have h1 : (trimSpace (c :: t)).length ≤ t.length := by
    unfold trimSpace
    rw [List.dropWhile_cons, if_pos hc]
    exact ((trimRight_isPrefix _).length_le).trans (List.dropWhile_suffix isSpace).length_le
  rw [h] at h1
  simp at h1

theorem trimSpace_last (s : Str) (hs : s ≠ []) (h : trimSpace s = s) :
    ∃ t c, s = t ++ [c] ∧ isSpace c = false := by
  obtain ⟨c0, t0, rfl, hc0⟩ := trimSpace_head s hs h
  have h2 : trimRight (c0 :: t0) = c0 :: t0 := by
    unfold trimSpace at h
    rwa [List.dropWhile_cons, if_neg (by simp [hc0])] at h
  obtain ⟨t, c, e⟩ : ∃ t c, c0 :: t0 = t ++ [c] :=
    ⟨(c0 :: t0).dropLast, (c0 :: t0).getLast hs, (List.dropLast_append_getLast hs).symm⟩
  refine ⟨t, c, e, ?_⟩
  by_contra hc
  rw [Bool.not_eq_false] at hc
  rw [e] at h2
  have h3 : (trimRight (t ++ [c])).length ≤ t.length := by
    unfold trimRight
    rw [List.reverse_append, List.reverse_singleton, List.singleton_append, List.dropWhile_cons,
      if_pos hc, List.length_reverse]
    simpa using (List.dropWhile_suffix isSpace (l := t.reverse)).length_le
  rw [h2] at h3
  simp at h3

theorem excise_tail (c : Char) (t : Str) (hc : isSpace c = false)
    (hdash : hasPrefix (c :: t) "- ".data = false) :
    trimSuffix (trimSuffix (trimPrefix (trimPrefix ((c :: t) ++ " -".data) " - ".data) "- ".data)
      " - ".data) " -".data = c :: t := by
  have hne := not_space_ne c hc
  have h1 : trimPrefix ((c :: t) ++ " -".data) " - ".data = (c :: t) ++ " -".data := by
    simp [trimPrefix, hasPrefix, Ne.symm hne]
  rw [h1]
  have h3 : ∀ s : Str, trimSuffix (s ++ " -".data) " - ".data = s ++ " -".data := by
    intro s
    simp [trimSuffix, hasSuffix]
  have h4 : ∀ s : Str, trimSuffix (s ++ " -".data) " -".data = s := by
    intro s
    simp [trimSuffix, hasSuffix]
  by_cases hd : c = '-' ∧ t = []
  · obtain ⟨rfl, rfl⟩ := hd
    decide
  · have h2 : trimPrefix ((c :: t) ++ " -".data) "- ".data = (c :: t) ++ " -".data := by
      by_cases hc2 : c = '-'
      · subst hc2
        cases t with
        | nil => simp at hd
        | cons d t =>
          have hd2 : d ≠ ' ' := by
            rintro rfl
            simp [hasPrefix] at hdash
          simp [trimPrefix, hasPrefix, Ne.symm hd2]
      · simp [trimPrefix, hasPrefix, Ne.symm hc2]
    rw [h2, h3, h4]
theorem replaceAllAux_skip_all (old new : Str) (s : Str) (k : Nat) (h : s.length ≤ k) :
    replaceAllAux old new k s = [] := by
  induction s generalizing k with
  | nil => cases k <;> rfl
  | cons c s ih =>
    cases k with
    | zero => simp at h
    | succ k =>
      rw [replaceAllAux]
      exact ih k (by simpa using h)

theorem replaceAll_only_final (A T : Str) (hA : A ≠ [])
    (huniq : ∀ p q, p ++ A ++ q = T ++ A → q = []) : replaceAll (T ++ A) A [] = T := by
  unfold replaceAll
  induction T with
  | nil =>
    obtain ⟨c, t, rfl⟩ := List.exists_cons_of_ne_nil hA
    have hp : (c :: t).isPrefixOf (c :: t) = true := List.isPrefixOf_iff_prefix.2 List.prefix_rfl
    rw [List.nil_append, replaceAllAux, if_pos hp, List.nil_append]
    exact replaceAllAux_skip_all _ _ _ _ (by simp)
  | cons x T ih =>
    have hnot : A.isPrefixOf (x :: (T ++ A)) = false := by
      rw [Bool.eq_false_iff]
      intro hp
      rw [List.isPrefixOf_iff_prefix] at hp
      obtain ⟨q, hq⟩ := hp
      have hq0 := huniq [] q (by simpa using hq)
      subst hq0
      have hl := congrArg List.length hq
      simp at hl
      omega
    have hrec : ∀ p q, p ++ A ++ q = T ++ A → q = [] := fun p q h =>
      huniq (x :: p) q (by simp [← h])
    show replaceAllAux A [] 0 (x :: (T ++ A)) = x :: T
    rw [replaceAllAux, hnot, ih hrec]
    simp

theorem only_final_of_dropLast (A T : Str) (h : contains (T ++ A).dropLast A = false) :
    ∀ p q, p ++ A ++ q = T ++ A → q = [] := by
  intro p q hpq
  by_contra hq
  rw [contains_eq_false_iff] at h
  apply h
  rw [← hpq, List.dropLast_append_of_ne_nil _ hq]
  exact ⟨p, q.dropLast, rfl⟩

theorem trimPrefix_isSuffix (s p : Str) : trimPrefix s p <:+ s := by
  unfold trimPrefix
  split
  · exact List.drop_suffix _ _
  · exact List.suffix_rfl

theorem trimSuffix_isPrefix (s p : Str) : trimSuffix s p <+: s := by
  unfold trimSuffix
  split
  · exact List.take_prefix _ _
  · exact List.prefix_rfl

theorem replaceAll_self (A : Str) (hA : A ≠ []) : replaceAll A A [] = [] := by
  have h := replaceAll_only_final A [] hA (fun p q hpq => by
    have hl := congrArg List.length hpq
    simp at hl
    exact List.length_eq_zero.1 (by omega))
  simpa using h

theorem replaceAll_single (s : Str) (c : Char) (r : Str) :
    replaceAll s [c] r = s.flatMap fun x => if x = c then r else [x] := by
  unfold replaceAll
  induction s with
  | nil => rfl
  | cons x s ih =>
    rw [replaceAllAux, List.flatMap_cons, ← ih]
    by_cases h : x = c
    · subst h
      simp
    · have h2 : ¬ c = x := fun e => h e.symm
      simp [h, h2]

theorem dropWhile_head_not_space (s : Str) (c : Char) (t : Str)
    (h : s.dropWhile isSpace = c :: t) : isSpace c = false := by
  have h2 : (c :: t).dropWhile isSpace = c :: t := by
    rw [← h, List.dropWhile_idempotent]
  by_contra hc
  rw [Bool.not_eq_false] at hc
  rw [List.dropWhile_cons, if_pos hc] at h2
  have := (List.dropWhile_suffix isSpace (l := t)).length_le
  rw [h2] at this
  simp at this

theorem trimRight_cons_head (c : Char) (t : Str) (hc : isSpace c = false) :
    ∃ u, trimRight (c :: t) = c :: u := by
  have hp := trimRight_isPrefix (c :: t)
  have hne : trimRight (c :: t) ≠ [] := by
    unfold trimRight
    rw [List.reverse_cons]
    obtain ⟨pre, hpre⟩ := suffix_dropWhile_append isSpace t.reverse c [] hc
    rw [← hpre]
    simp
  obtain ⟨x, u, hxu⟩ := List.exists_cons_of_ne_nil hne
  rw [hxu] at hp ⊢
  obtain ⟨r, hr⟩ := hp
  simp at hr
  exact ⟨u, by rw [hr.1]⟩

theorem trimRight_idem (s : Str) : trimRight (trimRight s) = trimRight s := by
  unfold trimRight
  rw [List.reverse_reverse, List.dropWhile_idempotent]

theorem trimSpace_idem (s : Str) : trimSpace (trimSpace s) = trimSpace s := by
  unfold trimSpace
  cases hX : s.dropWhile isSpace with
  | nil => rfl
  | cons c t =>
    have hc := dropWhile_head_not_space s c t hX
    obtain ⟨u, hu⟩ := trimRight_cons_head c t hc
    have h1 : (trimRight (c :: t)).dropWhile isSpace = trimRight (c :: t) := by
      rw [hu, List.dropWhile_cons, if_neg (by simp [hc])]
    rw [h1, trimRight_idem]

theorem artist_no_topic_or_no_dash (rawTitle rawAuthor : Str) :
    contains (splitTitleArtist rawTitle rawAuthor).2 "Topic".data = false ∨
    contains (splitTitleArtist rawTitle rawAuthor).2 " - ".data = false := by
  unfold splitTitleArtist
  split
  · rename_i h
    exact Or.inl h.2.2.2.2
  · split
    · unfold splitN2
      cases hc : cut rawTitle " - ".data with
      | none => exact Or.inl (show contains [] "Topic".data = false by decide)
      | some p =>
        obtain ⟨a, b⟩ := p
        refine Or.inr ?_
        obtain ⟨-, hfirst⟩ := cut_some_first _ (by decide) _ _ _ hc
        rw [contains_eq_false_iff]
        intro hin
        exact hfirst ((hin.trans (trimSpace_isInfix a)).trans (List.prefix_append a _).isInfix)
    · exact Or.inl (show contains [] "Topic".data = false by decide)

theorem artist_strip_noop (rawTitle rawAuthor : Str) :
    trimSuffix (splitTitleArtist rawTitle rawAuthor).2 " - Topic".data =
      (splitTitleArtist rawTitle rawAuthor).2 := by
  rcases artist_no_topic_or_no_dash rawTitle rawAuthor with h | h
  · exact trimSuffix_of_not_occurs _ _ "Topic".data (by decide) ((contains_eq_false_iff _ _).1 h)
  · exact trimSuffix_of_not_occurs _ _ " - ".data (by decide) ((contains_eq_false_iff _ _).1 h)

theorem titleWithoutArtist_eq (rawTitle artist : Str) :
    titleWithoutArtist rawTitle artist =
      if contains rawTitle artist = true then
        if excisedTitle rawTitle artist ≠ [] then excisedTitle rawTitle artist else rawTitle
      else rawTitle := rfl

theorem trimmed_of_ends (s : Str) (hh : ∀ c t, s = c :: t → isSpace c = false)
    (hl : ∀ u d, s = u ++ [d] → isSpace d = false) : trimSpace s = s := by
  cases s with
  | nil => rfl
  | cons c t =>
    have hc := hh c t rfl
    obtain ⟨u, d, e⟩ : ∃ u d, c :: t = u ++ [d] :=
      ⟨(c :: t).dropLast, (c :: t).getLast (by simp),
        (List.dropLast_append_getLast (by simp)).symm⟩
    have hd := hl u d e
    unfold trimSpace
    rw [List.dropWhile_cons, if_neg (by simp [hc]), e, trimRight_append_singleton _ _ hd]

theorem trimmed_head (s : Str) (h : trimSpace s = s) (c : Char) (t : Str) (e : s = c :: t) :
    isSpace c = false := by
  obtain ⟨c2, t2, e2, hc⟩ := trimSpace_head s (by rw [e]; simp) h
  rw [e] at e2
  cases e2
  exact hc

theorem trimmed_last (s : Str) (h : trimSpace s = s) (u : Str) (d : Char) (e : s = u ++ [d]) :
    isSpace d = false := by
  obtain ⟨u2, d2, e2, hd⟩ := trimSpace_last s (by rw [e]; simp) h
  rw [e] at e2
  obtain ⟨-, e3⟩ := List.append_inj' e2 rfl
  cases e3
  exact hd

theorem trimPrefix_cases (s p : Str) :
    (hasPrefix s p = false ∧ trimPrefix s p = s) ∨
    (hasPrefix s p = true ∧ s = p ++ trimPrefix s p) := by
  unfold trimPrefix
  cases h : hasPrefix s p with
  | false => exact Or.inl ⟨rfl, by simp⟩
  | true =>
    refine Or.inr ⟨rfl, ?_⟩
    unfold hasPrefix at h
    rw [ List.isPrefixOf_iff_prefix, List.prefix_iff_eq_append] at h
    simpa using h.symm

theorem trimSuffix_cases (s p : Str) :
    (hasSuffix s p = false ∧ trimSuffix s p = s) ∨
    (hasSuffix s p = true ∧ s = trimSuffix s p ++ p) := by
  unfold trimSuffix
  cases h : hasSuffix s p with
  | false => exact Or.inl ⟨rfl, by simp⟩
  | true =>
    refine Or.inr ⟨rfl, ?_⟩
    rw [hasSuffix_iff, List.suffix_iff_eq_append] at h
    simpa using h.symm

theorem hasPrefix_space_false (s p : Str) (hs : ∀ c t, s = c :: t → isSpace c = false) :
    hasPrefix s (' ' :: p) = false := by
  cases s with
  | nil => rfl
  | cons c t =>
    have hc := not_space_ne c (hs c t rfl)
    simp [hasPrefix, List.isPrefixOf, Ne.symm hc]

theorem hasSuffix_space_false (s p : Str) (hs : ∀ u d, s = u ++ [d] → isSpace d = false) :
    hasSuffix s (p ++ [' ']) = false := by
  rw [Bool.eq_false_iff]
  intro h
  rw [hasSuffix_iff] at h
  obtain ⟨pre, hpre⟩ := h
  have := hs (pre ++ p) ' ' (by rw [← hpre]; simp)
  exact absurd this (by decide)

theorem hasPrefix_iff (s p : Str) : hasPrefix s p = true ↔ p <+: s := by
  unfold hasPrefix
  rw [ List.isPrefixOf_iff_prefix]

theorem last_of_suffix (T D : Str) (hT : T <:+ D) (hD : trimSpace D = D) (u : Str) (d : Char)
    (e : T = u ++ [d]) : isSpace d = false := by
  obtain ⟨pre, hpre⟩ := hT
  exact trimmed_last D hD (pre ++ u) d (by rw [← hpre, e]; simp)

theorem strip_dead (D : Str) (hD : trimSpace D = D) :
    trimSuffix (trimSuffix (trimPrefix (trimPrefix D " - ".data) "- ".data) " - ".data)
      " -".data = trimSuffix (trimPrefix D "- ".data) " -".data := by
  have h1 : trimPrefix D " - ".data = D := by
    have := hasPrefix_space_false D "- ".data (trimmed_head D hD)
    unfold trimPrefix
    rw [show " - ".data = ' ' :: "- ".data from rfl, this]
    simp
  have h2 : trimSuffix (trimPrefix D "- ".data) " - ".data = trimPrefix D "- ".data := by
    have := hasSuffix_space_false (trimPrefix D "- ".data) " -".data
      (last_of_suffix _ D (trimPrefix_isSuffix D _) hD)
    unfold trimSuffix
    rw [show " - ".data = " -".data ++ [' '] from rfl, this]
    simp
  rw [h1, h2]

theorem strip_trimmed (D : Str) (hD : trimSpace D = D)
    (ha : ∀ c, hasPrefix D ("- ".data ++ [c]) = true → isSpace c = false)
    (hb : ∀ c, hasSuffix D (c :: " -".data) = true → isSpace c = false) :
    trimSpace (trimSuffix (trimPrefix D "- ".data) " -".data) =
      trimSuffix (trimPrefix D "- ".data) " -".data := by
  apply trimmed_of_ends
  · intro c t e
    obtain ⟨r, hr⟩ := trimSuffix_isPrefix (trimPrefix D "- ".data) " -".data
    rw [e] at hr
    rcases trimPrefix_cases D "- ".data with ⟨-, h⟩ | ⟨-, h⟩
    · rw [h] at hr
      exact trimmed_head D hD c (t ++ r) (by rw [← hr]; simp)
    · apply ha
      rw [hasPrefix_iff]
      refine ⟨t ++ r, ?_⟩
      rw [h, ← hr]
      simp
  · intro u d e
    rcases trimSuffix_cases (trimPrefix D "- ".data) " -".data with ⟨-, h⟩ | ⟨-, h⟩
    · rw [h] at e
      exact last_of_suffix _ D (trimPrefix_isSuffix D _) hD u d e
    · apply hb
      rw [hasSuffix_iff]
      obtain ⟨pre, hpre⟩ := trimPrefix_isSuffix D "- ".data
      refine ⟨pre ++ u, ?_⟩
      rw [← hpre, h, e]
      simp

theorem strip_of_core (D pre S post : Str) (hD : D = pre ++ S ++ post)
    (hpre : pre = [] ∨ pre = "- ".data) (hpost : post = [] ∨ post = " -".data)
    (hS : S ≠ []) (hStrim : trimSpace S = S)
    (hSp : hasPrefix S "- ".data = false) (hSs : hasSuffix S " -".data = false) :
    trimSuffix (trimPrefix D "- ".data) " -".data = S := by
  obtain ⟨c, t, rfl, hc⟩ := trimSpace_head S hS hStrim
  have hstep2 : trimSuffix (c :: t ++ post) " -".data = c :: t := by
    rcases hpost with rfl | rfl
    · rw [List.append_nil]
      unfold trimSuffix
      rw [hSs]
      simp
    · simp [trimSuffix, hasSuffix]
  subst hD
  rcases hpre with rfl | rfl
  · by_cases hp : hasPrefix (c :: t ++ post) "- ".data = true
    · have hc2 : c = '-' := by
        simp [hasPrefix] at hp
        exact hp.1.symm
      subst hc2
      cases t with
      | nil =>
        rcases hpost with rfl | rfl
        · simp [hasPrefix] at hp
        · decide
      | cons d t =>
        simp [hasPrefix] at hp
        subst hp
        simp [hasPrefix] at hSp
    · have e : trimPrefix ([] ++ (c :: t) ++ post) "- ".data = c :: t ++ post := by
        unfold trimPrefix
        rw [List.nil_append, if_neg hp]
      rw [e, hstep2]
  · have e : trimPrefix ("- ".data ++ (c :: t) ++ post) "- ".data = c :: t ++ post := by
      simp [trimPrefix, hasPrefix]
    rw [e, hstep2]

/-! ## C1 -/

/-- C1, the claim as stated fails: for title "Cool Track" and author_name
"SomeChannel - Topic" the artist returned by `parseSongLink` is empty, not
"SomeChannel". -/
theorem c1_topic_author_not_artist :
    parseSongLinkNames "Cool Track".data "SomeChannel - Topic".data = ("Cool Track".data, []) ∧
    (parseSongLinkNames "Cool Track".data "SomeChannel - Topic".data).2 ≠ "SomeChannel".data := by
  decide

/-- C1, amended: an author of the form `C ++ " - Topic"` contains "Topic" and
is never taken as the artist; when the trimmed title has no " - " to split on,
the artist returned is empty and the title returned is the trimmed title. -/
theorem c1_topic_author_skipped (C title : Str)
    (h : contains (trimSpace title) " - ".data = false) :
    parseSongLinkNames title (C ++ " - Topic".data) = (trimSpace title, []) := by
  have ht : contains (trimSpace (C ++ " - Topic".data)) "Topic".data = true :=
    (contains_iff_occurs _ _).2 (trimSpace_append_topic C)
  unfold parseSongLinkNames splitTitleArtist
  simp only [ht]
  by_cases h0 : trimSpace title = []
  · simp [h0]
  · simp [h0, splitN2, cut_eq_none _ _ h]

/-- C1, the amended claim at title "Cool Track" and author "SomeChannel - Topic". -/
theorem c1_topic_author_skipped_witness :
    contains (trimSpace "Cool Track".data) " - ".data = false ∧
    parseSongLinkNames "Cool Track".data ("SomeChannel".data ++ " - Topic".data) =
      (trimSpace "Cool Track".data, []) :=
  ⟨by decide, c1_topic_author_skipped _ _ (by decide)⟩

/-! ## C2 -/

/-- C2, the claim as stated fails: with nothing from the embed stage and the
raw text "Midnight - DJ Nova" from the page scraper, `main` takes the text
before " - " as the artist, so the artist is "Midnight" and the title is
"DJ Nova", not the other way round. -/
theorem c2_dash_text_is_artist_then_title :
    (resolveMetadata [] [] [] (some ("Midnight - DJ Nova".data, []))).artist ≠ "DJ Nova".data ∧
    (resolveMetadata [] [] [] (some ("Midnight - DJ Nova".data, []))).title ≠ "Midnight".data := by
  decide

/-- C2, amended: with nothing from the embed stage, no override names and the
raw text "Midnight - DJ Nova" with an empty video URL from the page scraper,
`main` yields artist "Midnight", title "DJ Nova" and an empty video URL, the
display text is '"DJ Nova" by Midnight', and the download target is the
source link. -/
theorem c2_scraper_dash_text (urlArg : Str) (timestamp : Int) :
    resolveMetadata [] [] [] (some ("Midnight - DJ Nova".data, [])) =
      ⟨"Midnight".data, "DJ Nova".data, []⟩ ∧
    (presentation [] [] "DJ Nova".data "Midnight".data urlArg timestamp).linkDisplayText =
      "\"DJ Nova\" by Midnight".data ∧
    downloadURL (resolveMetadata [] [] [] (some ("Midnight - DJ Nova".data, []))).videoURL urlArg =
      urlArg := by
  refine ⟨by decide, ?_, ?_⟩
  · simp [presentation]
  · have e : (resolveMetadata [] [] [] (some ("Midnight - DJ Nova".data, []))).videoURL = [] := by
      decide
    simp [e, downloadURL]

/-! ## C3 -/

/-- C3: for a non-empty trimmed author `A` that is not one of the platform
names and does not contain "Topic", and a non-empty trimmed song name `S` that
does not start with "- ", when the only occurrence of `A` in
`S ++ " - " ++ A` is the final one, the response with that title and author
`A` yields title `S` and artist `A`. -/
theorem c3_title_dash_author (S A : Str)
    (hA : A ≠ []) (hAtrim : trimSpace A = A)
    (hyt : equalFold A "youtube".data = false)
    (hsc : equalFold A "soundcloud".data = false)
    (hsp : equalFold A "spotify".data = false)
    (htopic : contains A "Topic".data = false)
    (hS : S ≠ []) (hStrim : trimSpace S = S)
    (hdash : hasPrefix S "- ".data = false)
    (huniq : ∀ p q, p ++ A ++ q = S ++ " - ".data ++ A → q = []) :
    parseSongLinkNames (S ++ " - ".data ++ A) A = (S, A) := by
  obtain ⟨c, t, rfl, hc⟩ := trimSpace_head S hS hStrim
  obtain ⟨u, d, rfl, hd⟩ := trimSpace_last A hA hAtrim
  have htitle : trimSpace (c :: t ++ " - ".data ++ (u ++ [d])) =
      c :: t ++ " - ".data ++ (u ++ [d]) := by
    unfold trimSpace
    rw [List.cons_append, List.cons_append, List.dropWhile_cons, if_neg (by simp [hc])]
    have e : c :: (t ++ " - ".data ++ (u ++ [d])) = (c :: (t ++ " - ".data ++ u)) ++ [d] := by
      simp
    rw [e, trimRight_append_singleton _ _ hd]
  have hrest : trimSpace (c :: t ++ " - ".data) = c :: t ++ " -".data := by
    unfold trimSpace
    rw [List.cons_append, List.dropWhile_cons, if_neg (by simp [hc])]
    have e : c :: (t ++ " - ".data) = (c :: t ++ " -".data) ++ [' '] := by simp
    have e2 : c :: t ++ " -".data = (c :: t ++ [' ']) ++ ['-'] := by simp
    rw [e]
    unfold trimRight
    rw [List.reverse_append, List.reverse_singleton, List.singleton_append, List.dropWhile_cons,
      if_pos (by decide), e2, List.reverse_append, List.reverse_singleton, List.singleton_append,
      List.dropWhile_cons, if_neg (by decide)]
    simp
  have hcontains : contains (c :: t ++ " - ".data ++ (u ++ [d])) (u ++ [d]) = true :=
    (contains_iff_occurs _ _).2 (List.suffix_append _ _).isInfix
  have hstrip : trimSuffix (u ++ [d]) " - Topic".data = u ++ [d] :=
    trimSuffix_of_not_occurs _ _ "Topic".data (by decide) ((contains_eq_false_iff _ _).1 htopic)
  unfold parseSongLinkNames splitTitleArtist titleWithoutArtist
  rw [htitle, hAtrim]
  simp only [hyt, hsc, hsp, htopic, hcontains, replaceAll_only_final _ _ hA huniq, hrest,
    excise_tail c t hc hdash, hstrip]
  simpa using hstrip

/-- C3 at title "Song X - Artist Y" and author "Artist Y": the title returned
is "Song X" and the artist is "Artist Y". -/
theorem c3_title_dash_author_witness :
    parseSongLinkNames ("Song X".data ++ " - ".data ++ "Artist Y".data) "Artist Y".data =
      ("Song X".data, "Artist Y".data) :=
  c3_title_dash_author "Song X".data "Artist Y".data (by decide) (by decide) (by decide)
    (by decide) (by decide) (by decide) (by decide) (by decide) (by decide)
    (only_final_of_dropLast _ _ (by decide))

/-! ## C4 -/

/-- C4: when the trimmed author is case-insensitively equal to "youtube",
"soundcloud" or "spotify" and the trimmed title contains " - ", the title has a
first occurrence of " - ", and `parseSongLink` returns the trimmed text before
that first occurrence as the artist and the trimmed text after it as the
title. -/
theorem c4_platform_author_splits_at_first_dash (title authorName : Str)
    (hauthor : equalFold (trimSpace authorName) "youtube".data = true ∨
      equalFold (trimSpace authorName) "soundcloud".data = true ∨
      equalFold (trimSpace authorName) "spotify".data = true)
    (hdash : contains (trimSpace title) " - ".data = true) :
    (∃ before after, trimSpace title = before ++ " - ".data ++ after ∧
      ¬ " - ".data <:+: before ++ " -".data) ∧
    ∀ before after, trimSpace title = before ++ " - ".data ++ after →
      ¬ " - ".data <:+: before ++ " -".data →
      parseSongLinkNames title authorName = (trimSpace after, trimSpace before) := by
  have hsep : " - ".data ≠ [] := by decide
  constructor
  · cases hc : cut (trimSpace title) " - ".data with
    | none => exact absurd hc (cut_ne_none _ _ hsep hdash)
    | some p =>
      obtain ⟨a, b⟩ := p
      exact ⟨a, b, cut_some_first _ hsep _ _ _ hc⟩
  · intro before after hsplit hfirst
    have hcut : cut (trimSpace title) " - ".data = some (before, after) := by
      rw [hsplit]
      exact cut_of_first _ hsep _ _ hfirst
    have hne : trimSpace title ≠ [] := by
      rw [hsplit]
      simp
    have hguard : ¬ (trimSpace authorName ≠ [] ∧
        equalFold (trimSpace authorName) "youtube".data = false ∧
        equalFold (trimSpace authorName) "soundcloud".data = false ∧
        equalFold (trimSpace authorName) "spotify".data = false ∧
        contains (trimSpace authorName) "Topic".data = false) := by
      rintro ⟨-, h1, h2, h3, -⟩
      rcases hauthor with h | h | h <;> simp_all
    have hstrip : trimSuffix (trimSpace before) " - Topic".data = trimSpace before := by
      apply trimSuffix_of_not_occurs _ _ " - ".data (by decide)
      intro hin
      exact hfirst ((hin.trans (trimSpace_isInfix before)).trans
        (List.prefix_append before _).isInfix)
    unfold parseSongLinkNames splitTitleArtist
    simp only [if_neg hguard, if_pos hne, splitN2, hcut, hstrip, ite_self]

/-- C4 at author "YouTube": title "A - B - C" gives artist "A" and title
"B - C", and title "Artist - Track" gives artist "Artist" and title "Track". -/
theorem c4_platform_author_splits_at_first_dash_witness :
    (equalFold (trimSpace "YouTube".data) "youtube".data = true ∧
      contains (trimSpace "A - B - C".data) " - ".data = true ∧
      parseSongLinkNames "A - B - C".data "YouTube".data = ("B - C".data, "A".data)) ∧
    parseSongLinkNames "Artist - Track".data "YouTube".data = ("Track".data, "Artist".data) :=
  ⟨⟨by decide, by decide,
    (c4_platform_author_splits_at_first_dash "A - B - C".data "YouTube".data
      (Or.inl (by decide)) (by decide)).2 "A".data "B - C".data (by decide) (by decide)⟩,
    (c4_platform_author_splits_at_first_dash "Artist - Track".data "YouTube".data
      (Or.inl (by decide)) (by decide)).2 "Artist".data "Track".data (by decide) (by decide)⟩

/-! ## C5 -/

/-- C5, the claim as stated fails: for title "Bob" and artist "Bob" the
excision leaves nothing, the raw title is kept and it contains the artist; for
title "A - - X" and artist "A" the song title is "- X", which starts with
"- ". -/
theorem c5_excision_keeps_artist_or_debris :
    (contains "Bob".data "Bob".data = true ∧
      contains (titleWithoutArtist "Bob".data "Bob".data) "Bob".data = true ∧
      (parseSongLinkNames "Bob".data "Bob".data).1 = "Bob".data) ∧
    (contains "A - - X".data "A".data = true ∧
      hasPrefix (titleWithoutArtist "A - - X".data "A".data) "- ".data = true ∧
      (parseSongLinkNames "A - - X".data "A".data).1 = "- X".data) := by
  decide

/-- C5, amended: for a non-empty title that contains the non-empty artist, let
`D` be the title with the occurrences of the artist deleted and then
whitespace-trimmed, and `excisedTitle` the text left of `D` by lines 99-102.
The song title is not empty; it is `excisedTitle` when that is not empty, and
the raw title unchanged when it is empty, as when the title is the artist
alone.  When `excisedTitle` is not empty the song title is a substring of the
title with the artist deleted and does not contain the artist if that deletion
leaves no occurrence of it.  When `D` is a core `S` with at most one leading
"- " and at most one trailing " -" around it, `S` non-empty, whitespace-trimmed,
not starting with "- " and not ending with " -", the song title is `S` and it
neither starts nor ends with " - ", "- " or " -". -/
theorem c5_excision_result (rawTitle artist : Str) (hT : rawTitle ≠ []) (hA : artist ≠ [])
    (hc : contains rawTitle artist = true) :
    titleWithoutArtist rawTitle artist ≠ [] ∧
    (rawTitle = artist → titleWithoutArtist rawTitle artist = rawTitle) ∧
    (excisedTitle rawTitle artist = [] → titleWithoutArtist rawTitle artist = rawTitle) ∧
    (excisedTitle rawTitle artist ≠ [] →
      titleWithoutArtist rawTitle artist = excisedTitle rawTitle artist ∧
      titleWithoutArtist rawTitle artist <:+: replaceAll rawTitle artist [] ∧
      (contains (replaceAll rawTitle artist []) artist = false →
        contains (titleWithoutArtist rawTitle artist) artist = false)) ∧
    (∀ pre S post, trimSpace (replaceAll rawTitle artist []) = pre ++ S ++ post →
      (pre = [] ∨ pre = "- ".data) → (post = [] ∨ post = " -".data) →
      S ≠ [] → trimSpace S = S → hasPrefix S "- ".data = false →
      hasSuffix S " -".data = false →
      titleWithoutArtist rawTitle artist = S ∧
      hasPrefix (titleWithoutArtist rawTitle artist) " - ".data = false ∧
      hasPrefix (titleWithoutArtist rawTitle artist) "- ".data = false ∧
      hasPrefix (titleWithoutArtist rawTitle artist) " -".data = false ∧
      hasSuffix (titleWithoutArtist rawTitle artist) " - ".data = false ∧
      hasSuffix (titleWithoutArtist rawTitle artist) "- ".data = false ∧
      hasSuffix (titleWithoutArtist rawTitle artist) " -".data = false) := by
  have hin : excisedTitle rawTitle artist <:+: replaceAll rawTitle artist [] :=
    ((((trimSuffix_isPrefix _ _).isInfix.trans (trimSuffix_isPrefix _ _).isInfix).trans
      (trimPrefix_isSuffix _ _).isInfix).trans (trimPrefix_isSuffix _ _).isInfix).trans
      (trimSpace_isInfix _)
  have hnil : excisedTitle rawTitle artist = [] → titleWithoutArtist rawTitle artist = rawTitle := by
    intro h
    rw [titleWithoutArtist_eq, if_pos hc, h]
    simp
  have hsome : excisedTitle rawTitle artist ≠ [] →
      titleWithoutArtist rawTitle artist = excisedTitle rawTitle artist := by
    intro h
    rw [titleWithoutArtist_eq, if_pos hc, if_pos h]
  refine ⟨?_, ?_, hnil, ?_, ?_⟩
  · by_cases h : excisedTitle rawTitle artist = []
    · rw [hnil h]
      exact hT
    · rw [hsome h]
      exact h
  · rintro rfl
    apply hnil
    unfold excisedTitle
    rw [replaceAll_self _ hA]
    decide
  · intro h
    rw [hsome h]
    refine ⟨rfl, hin, fun hno => ?_⟩
    rw [contains_eq_false_iff] at hno ⊢
    exact fun h2 => hno (h2.trans hin)
  · intro pre S post hD hpre hpost hS hStrim hSp hSs
    have hDtrim : trimSpace (trimSpace (replaceAll rawTitle artist [])) =
        trimSpace (replaceAll rawTitle artist []) := trimSpace_idem _
    have hcore : excisedTitle rawTitle artist = S := by
      unfold excisedTitle
      show trimSuffix (trimSuffix (trimPrefix (trimPrefix _ _) _) _) _ = S
      rw [strip_dead _ hDtrim]
      exact strip_of_core _ pre S post hD hpre hpost hS hStrim hSp hSs
    have htitle : titleWithoutArtist rawTitle artist = S := by
      rw [hsome (by rw [hcore]; exact hS), hcore]
    rw [htitle]
    exact ⟨rfl, hasPrefix_space_false S "- ".data (trimmed_head S hStrim), hSp,
      hasPrefix_space_false S "-".data (trimmed_head S hStrim),
      hasSuffix_space_false S " -".data (trimmed_last S hStrim),
      hasSuffix_space_false S "-".data (trimmed_last S hStrim), hSs⟩

/-- C5, the amended claim at title "Song X - Artist Y" and artist "Artist Y":
the text left after the deletion is the core "Song X" with a trailing " -",
and the song title is "Song X". -/
theorem c5_excision_result_witness :
    titleWithoutArtist "Song X - Artist Y".data "Artist Y".data = "Song X".data :=
  ((c5_excision_result "Song X - Artist Y".data "Artist Y".data (by decide) (by decide)
    (by decide)).2.2.2.2 [] "Song X".data " -".data (by decide) (Or.inl rfl) (Or.inr rfl)
    (by decide) (by decide) (by decide) (by decide)).1

/-! ## C6 -/

/-- C6: when both override names are non-empty, the display text is
'"' ++ songname ++ '" by ' ++ authorname and the file base text is
songname ++ " by " ++ authorname, whatever the resolved metadata; for song name
"Anthem" and author name "Band" the display text is '"Anthem" by Band' and
`sanitizeFilename` of the file base text is "Anthem_by_Band". -/
theorem c6_override_names (songname authorname finalTitle finalArtist urlArg : Str)
    (timestamp : Int) (hs : songname ≠ []) (ha : authorname ≠ []) :
    presentation songname authorname finalTitle finalArtist urlArg timestamp =
      ⟨"\"".data ++ songname ++ "\" by ".data ++ authorname,
        songname ++ " by ".data ++ authorname⟩ ∧
    (songname = "Anthem".data → authorname = "Band".data →
      (presentation songname authorname finalTitle finalArtist urlArg timestamp).linkDisplayText =
        "\"Anthem\" by Band".data ∧
      sanitizeFilename
        (presentation songname authorname finalTitle finalArtist urlArg
          timestamp).filenameBaseText = "Anthem_by_Band".data) := by
  have h : presentation songname authorname finalTitle finalArtist urlArg timestamp =
      ⟨"\"".data ++ songname ++ "\" by ".data ++ authorname,
        songname ++ " by ".data ++ authorname⟩ := by
    unfold presentation
    rw [if_pos ⟨hs, ha⟩]
  refine ⟨h, ?_⟩
  rintro rfl rfl
  rw [h]
  exact ⟨by decide, by decide⟩

/-- C6 at song name "Anthem", author name "Band" and resolved title "Other",
artist "Someone". -/
theorem c6_override_names_witness :
    (presentation "Anthem".data "Band".data "Other".data "Someone".data "https://song.link/x".data
      0).linkDisplayText = "\"Anthem\" by Band".data ∧
    sanitizeFilename (presentation "Anthem".data "Band".data "Other".data "Someone".data
      "https://song.link/x".data 0).filenameBaseText = "Anthem_by_Band".data :=
  (c6_override_names "Anthem".data "Band".data "Other".data "Someone".data
    "https://song.link/x".data 0 (by decide) (by decide)).2 rfl rfl

/-! ## C7 -/

/-- C7, the claim as stated fails: `sanitizeFilename` turns the slash of "a/b"
and the backslash of "a\\b" into an underscore; it does not delete them. -/
theorem c7_slash_becomes_underscore :
    sanitizeFilename "a/b".data = "a_b".data ∧ sanitizeFilename "a/b".data ≠ "ab".data ∧
    sanitizeFilename "a\\b".data = "a_b".data ∧ sanitizeFilename "a\\b".data ≠ "ab".data := by
  decide

/-- C7, amended: `sanitizeFilename` replaces each space, slash and backslash by
an underscore, deletes each colon, asterisk, question mark, double quote, `<`,
`>` and `|`, and leaves every other character unchanged and in order. -/
theorem c7_sanitizeFilename_charwise (s : Str) :
    sanitizeFilename s = s.flatMap fun c =>
      if c = ' ' ∨ c = '/' ∨ c = '\\' then ['_']
      else if c = ':' ∨ c = '*' ∨ c = '?' ∨ c = '"' ∨ c = '<' ∨ c = '>' ∨ c = '|' then []
      else [c] := by
  unfold sanitizeFilename
  simp only [show " ".data = [' '] from rfl, show "/".data = ['/'] from rfl,
    show "\\".data = ['\\'] from rfl, show ":".data = [':'] from rfl,
    show "*".data = ['*'] from rfl, show "?".data = ['?'] from rfl,
    show "\"".data = ['"'] from rfl, show "<".data = ['<'] from rfl,
    show ">".data = ['>'] from rfl, show "|".data = ['|'] from rfl,
    show "_".data = ['_'] from rfl, replaceAll_single]
  simp only [List.flatMap_assoc]
  congr 1
  funext x
  by_cases h1 : x = ' '
  · subst h1; decide
  by_cases h2 : x = '/'
  · subst h2; decide
  by_cases h3 : x = '\\'
  · subst h3; decide
  by_cases h4 : x = ':'
  · subst h4; decide
  by_cases h5 : x = '*'
  · subst h5; decide
  by_cases h6 : x = '?'
  · subst h6; decide
  by_cases h7 : x = '"'
  · subst h7; decide
  by_cases h8 : x = '<'
  · subst h8; decide
  by_cases h9 : x = '>'
  · subst h9; decide
  by_cases h10 : x = '|'
  · subst h10; decide
  simp [h1, h2, h3, h4, h5, h6, h7, h8, h9, h10]

/-! ## C8 -/

/-- C8, what the code does at the captured URL
"https://www.youtube.com/embed/dQw4w9WgXcQ?feature=oembed": the query
"?feature=oembed" is kept, so the video URL returned is
"https://www.youtube.com/watch?v=dQw4w9WgXcQ?feature=oembed" and not the
watch form with the video id alone. -/
theorem c8_embed_query_kept :
    canonicalWatchURL "https://www.youtube.com/embed/dQw4w9WgXcQ?feature=oembed".data =
      "https://www.youtube.com/watch?v=dQw4w9WgXcQ?feature=oembed".data ∧
    parseSongLinkURL (some "https://www.youtube.com/embed/dQw4w9WgXcQ?feature=oembed".data) [] ≠
      "https://www.youtube.com/watch?v=dQw4w9WgXcQ".data := by
  decide

/-! ## C9 -/

/-- C9, the claim as stated fails: with no override names, an unknown title
and artist "A", the display text is "Unknown Song by A" but the file base text
is the artist "A" alone. -/
theorem c9_artist_only_file_base :
    (presentation [] [] [] "A".data [] 0).linkDisplayText = "Unknown Song by A".data ∧
    (presentation [] [] [] "A".data [] 0).filenameBaseText = "A".data ∧
    (presentation [] [] [] "A".data [] 0).filenameBaseText ≠ "Unknown Song by A".data := by
  decide

/-- C9, amended: with no override pair, when title and artist are both known
the display text is '"T" by A' and the file base text is "T by A"; when only
the title is known they are '"T"' and "T"; when only the artist is known the
display text is "Unknown Song by A" and the file base text is the artist
alone. -/
theorem c9_file_base_text (songname authorname finalTitle finalArtist urlArg : Str)
    (timestamp : Int) (hno : ¬ (songname ≠ [] ∧ authorname ≠ [])) :
    (finalTitle ≠ [] → finalArtist ≠ [] →
      presentation songname authorname finalTitle finalArtist urlArg timestamp =
        ⟨"\"".data ++ finalTitle ++ "\" by ".data ++ finalArtist,
          finalTitle ++ " by ".data ++ finalArtist⟩) ∧
    (finalTitle ≠ [] → finalArtist = [] →
      presentation songname authorname finalTitle finalArtist urlArg timestamp =
        ⟨"\"".data ++ finalTitle ++ "\"".data, finalTitle⟩) ∧
    (finalTitle = [] → finalArtist ≠ [] →
      presentation songname authorname finalTitle finalArtist urlArg timestamp =
        ⟨"Unknown Song by ".data ++ finalArtist, finalArtist⟩) := by
  unfold presentation
  rw [if_neg hno]
  refine ⟨fun ht ha => ?_, fun ht ha => ?_, fun ht ha => ?_⟩
  · rw [if_pos ⟨ht, ha⟩]
  · rw [if_neg (fun h => h.2 ha), if_pos ht]
  · rw [if_neg (fun h => h.1 ht), if_neg (fun h => h ht), if_pos ha]

/-- C9, the amended claim with no override names, an unknown title and artist
"A". -/
theorem c9_file_base_text_witness :
    presentation [] [] [] "A".data "https://song.link/x".data 0 =
      ⟨"Unknown Song by ".data ++ "A".data, "A".data⟩ :=
  (c9_file_base_text [] [] [] "A".data "https://song.link/x".data 0 (by decide)).2.2 rfl
    (by decide)

/-! ## C10 -/

/-- C10, the claim as stated fails: for title "Artist -  Song" and author
"Artist" the embed stage returns the title " Song"; `main` trims it at line
626, so the final title is "Song" and not the embed-stage value. -/
theorem c10_embed_title_is_trimmed :
    parseSongLinkNames "Artist -  Song".data "Artist".data = (" Song".data, "Artist".data) ∧
    (resolveMetadata " Song".data "Artist".data "https://youtu.be/abcdefghijk".data none).title =
      "Song".data ∧
    (resolveMetadata " Song".data "Artist".data "https://youtu.be/abcdefghijk".data none).title ≠
      " Song".data := by
  decide

/-- C10, amended: whatever the embed stage and the page scraper return, a
title or artist of the embed stage that is non-empty after the trimming of
lines 625-626 is, whitespace-trimmed, the final title or artist (so it is the
final one as it stands when the embed stage returned it trimmed), and a
non-empty video URL of the embed stage is the final video URL; a final field
that differs from the trimmed embed value is one the embed stage left empty
and the scraper supplied. -/
theorem c10_first_writer_wins (oembedTitle oembedArtist oembedYoutubeURL : Str)
    (html : Option (Str × Str)) :
    (trimSpace oembedTitle ≠ [] →
      (resolveMetadata oembedTitle oembedArtist oembedYoutubeURL html).title =
        trimSpace oembedTitle ∧
      (trimSpace oembedTitle = oembedTitle →
        (resolveMetadata oembedTitle oembedArtist oembedYoutubeURL html).title = oembedTitle)) ∧
    (trimSpace oembedArtist ≠ [] →
      (resolveMetadata oembedTitle oembedArtist oembedYoutubeURL html).artist =
        trimSpace oembedArtist ∧
      (trimSpace oembedArtist = oembedArtist →
        (resolveMetadata oembedTitle oembedArtist oembedYoutubeURL html).artist =
          oembedArtist)) ∧
    (oembedYoutubeURL ≠ [] →
      (resolveMetadata oembedTitle oembedArtist oembedYoutubeURL html).videoURL =
        oembedYoutubeURL) ∧
    ((resolveMetadata oembedTitle oembedArtist oembedYoutubeURL html).title ≠
        trimSpace oembedTitle →
      trimSpace oembedTitle = [] ∧ ∃ raw u, html = some (raw, u) ∧
        (resolveMetadata oembedTitle oembedArtist oembedYoutubeURL html).title =
          (namesFromRawText raw).1) ∧
    ((resolveMetadata oembedTitle oembedArtist oembedYoutubeURL html).artist ≠
        trimSpace oembedArtist →
      trimSpace oembedArtist = [] ∧ ∃ raw u, html = some (raw, u) ∧
        (resolveMetadata oembedTitle oembedArtist oembedYoutubeURL html).artist =
          (namesFromRawText raw).2) ∧
    ((resolveMetadata oembedTitle oembedArtist oembedYoutubeURL html).videoURL ≠
        oembedYoutubeURL →
      oembedYoutubeURL = [] ∧ ∃ raw u, html = some (raw, u) ∧
        (resolveMetadata oembedTitle oembedArtist oembedYoutubeURL html).videoURL = u) := by
  cases html with
  | none =>
    have e : resolveMetadata oembedTitle oembedArtist oembedYoutubeURL none =
        ⟨trimSpace oembedArtist, trimSpace oembedTitle, oembedYoutubeURL⟩ := by
      simp only [resolveMetadata]
      split_ifs <;> rfl
    rw [e]
    simp
  | some p =>
    obtain ⟨raw, u⟩ := p
    refine ⟨fun h => ⟨?_, fun ht => ?_⟩, fun h => ⟨?_, fun ht => ?_⟩, fun h => ?_, fun h => ?_,
      fun h => ?_, fun h => ?_⟩
    · simp only [resolveMetadata]
      split_ifs <;> simp_all
    · rw [← ht]
      simp only [resolveMetadata]
      split_ifs <;> simp_all
    · simp only [resolveMetadata]
      split_ifs <;> simp_all
    · rw [← ht]
      simp only [resolveMetadata]
      split_ifs <;> simp_all
    · simp only [resolveMetadata]
      split_ifs <;> simp_all
    · simp only [resolveMetadata] at h ⊢
      split_ifs at h ⊢ <;> simp_all
    · simp only [resolveMetadata] at h ⊢
      split_ifs at h ⊢ <;> simp_all
    · simp only [resolveMetadata] at h ⊢
      split_ifs at h ⊢ <;> simp_all

/-- C10, the amended claim at embed title "Song", no embed artist or video
URL, and a page scraper that returns "Other by Someone" and a video URL: the
title stays "Song". -/
theorem c10_first_writer_wins_witness :
    (resolveMetadata "Song".data [] []
      (some ("Other by Someone".data, "https://youtu.be/abcdefghijk".data))).title =
        "Song".data :=
  ((c10_first_writer_wins "Song".data [] []
    (some ("Other by Someone".data, "https://youtu.be/abcdefghijk".data))).1 (by decide)).1

/-! ## C11 -/

/-- C11, the claim as stated fails: for title "Artist -  Song" and author
"Artist" the title returned is " Song", with a leading space, and for title
"Song  - Artist" it is "Song ", with a trailing space. -/
theorem c11_title_keeps_space :
    parseSongLinkNames "Artist -  Song".data "Artist".data = (" Song".data, "Artist".data) ∧
    trimSpace " Song".data ≠ " Song".data ∧
    parseSongLinkNames "Song  - Artist".data "Artist".data = ("Song ".data, "Artist".data) ∧
    trimSpace "Song ".data ≠ "Song ".data := by
  decide

/-- C11, amended: the artist returned by `parseSongLink` is empty or
whitespace-trimmed (`trimSpace` leaves it as it is).  So is the title whenever
the author is not taken as the artist or does not occur in the trimmed title;
and so is it whenever the text `D` left of the trimmed title by deleting the
author and trimming does not start with "- " followed by a white-space
character and does not end with a white-space character followed by " -":
only the strips of lines 100 and 102 can uncover a space. -/
theorem c11_artist_and_title_trimmed (title authorName : Str) :
    trimSpace (parseSongLinkNames title authorName).2 = (parseSongLinkNames title authorName).2 ∧
    ((trimSpace authorName = [] ∨ equalFold (trimSpace authorName) "youtube".data = true ∨
        equalFold (trimSpace authorName) "soundcloud".data = true ∨
        equalFold (trimSpace authorName) "spotify".data = true ∨
        contains (trimSpace authorName) "Topic".data = true ∨
        contains (trimSpace title) (trimSpace authorName) = false) →
      trimSpace (parseSongLinkNames title authorName).1 =
        (parseSongLinkNames title authorName).1) ∧
    ((∀ c, hasPrefix (trimSpace (replaceAll (trimSpace title) (trimSpace authorName) []))
        ("- ".data ++ [c]) = true → isSpace c = false) →
      (∀ c, hasSuffix (trimSpace (replaceAll (trimSpace title) (trimSpace authorName) []))
        (c :: " -".data) = true → isSpace c = false) →
      trimSpace (parseSongLinkNames title authorName).1 =
        (parseSongLinkNames title authorName).1) := by
  have hnil : trimSpace ([] : Str) = [] := rfl
  have hplain : (trimSpace authorName = [] ∨ equalFold (trimSpace authorName) "youtube".data = true ∨
        equalFold (trimSpace authorName) "soundcloud".data = true ∨
        equalFold (trimSpace authorName) "spotify".data = true ∨
        contains (trimSpace authorName) "Topic".data = true ∨
        contains (trimSpace title) (trimSpace authorName) = false) →
      trimSpace (parseSongLinkNames title authorName).1 =
        (parseSongLinkNames title authorName).1 := by
    intro h
    have e : (parseSongLinkNames title authorName).1 =
        (splitTitleArtist (trimSpace title) (trimSpace authorName)).1 := rfl
    rw [e]
    unfold splitTitleArtist
    split
    · rename_i g
      obtain ⟨g0, g1, g2, g3, g4⟩ := g
      have hc : contains (trimSpace title) (trimSpace authorName) = false := by
        rcases h with h | h | h | h | h | h
        · exact absurd h g0
        · rw [g1] at h; exact absurd h (by decide)
        · rw [g2] at h; exact absurd h (by decide)
        · rw [g3] at h; exact absurd h (by decide)
        · rw [g4] at h; exact absurd h (by decide)
        · exact h
      show trimSpace (if trimSpace title ≠ [] then _ else _) = _
      split
      · unfold titleWithoutArtist
        simp only [hc, Bool.false_eq_true, if_false]
        exact trimSpace_idem _
      · exact hnil
    · split
      · unfold splitN2
        cases cut (trimSpace title) " - ".data with
        | none => exact trimSpace_idem _
        | some p => exact trimSpace_idem _
      · exact hnil
  refine ⟨?_, hplain, ?_⟩
  · have e : (parseSongLinkNames title authorName).2 =
        (splitTitleArtist (trimSpace title) (trimSpace authorName)).2 := by
      unfold parseSongLinkNames
      show (if _ then trimSuffix _ _ else _) = _
      rw [artist_strip_noop, ite_self]
    rw [e]
    unfold splitTitleArtist
    split
    · exact trimSpace_idem _
    · split
      · unfold splitN2
        cases cut (trimSpace title) " - ".data with
        | none => exact hnil
        | some p => exact trimSpace_idem _
      · exact hnil
  · intro ha hb
    by_cases g : trimSpace authorName ≠ [] ∧
        equalFold (trimSpace authorName) "youtube".data = false ∧
        equalFold (trimSpace authorName) "soundcloud".data = false ∧
        equalFold (trimSpace authorName) "spotify".data = false ∧
        contains (trimSpace authorName) "Topic".data = false
    · by_cases hc : contains (trimSpace title) (trimSpace authorName) = true
      · have e : (parseSongLinkNames title authorName).1 =
            if trimSpace title ≠ [] then
              titleWithoutArtist (trimSpace title) (trimSpace authorName)
            else [] := by
          show (splitTitleArtist (trimSpace title) (trimSpace authorName)).1 = _
          unfold splitTitleArtist
          rw [if_pos g]
        rw [e]
        split
        · rw [titleWithoutArtist_eq, if_pos hc]
          have hDtrim := trimSpace_idem (replaceAll (trimSpace title) (trimSpace authorName) [])
          have hE : excisedTitle (trimSpace title) (trimSpace authorName) =
              trimSuffix (trimPrefix (trimSpace (replaceAll (trimSpace title)
                (trimSpace authorName) [])) "- ".data) " -".data := by
            unfold excisedTitle
            exact strip_dead _ hDtrim
          split
          · rw [hE]
            exact strip_trimmed _ hDtrim ha hb
          · exact trimSpace_idem _
        · exact hnil
      · exact hplain (Or.inr (Or.inr (Or.inr (Or.inr (Or.inr (by simpa using hc))))))
    · apply hplain
      by_contra hno
      apply g
      simp only [not_or] at hno
      obtain ⟨h0, h1, h2, h3, h4, -⟩ := hno
      exact ⟨h0, by simpa using h1, by simpa using h2, by simpa using h3, by simpa using h4⟩

/-- C11, the amended claim at author "Artist Y": for title "Cool Track" the
author does not occur in the title, for title "Song X - Artist Y" the text left
is "Song X -"; both titles returned are whitespace-trimmed. -/
theorem c11_artist_and_title_trimmed_witness :
    trimSpace (parseSongLinkNames "Cool Track".data "Artist Y".data).1 =
      (parseSongLinkNames "Cool Track".data "Artist Y".data).1 ∧
    trimSpace (parseSongLinkNames "Song X - Artist Y".data "Artist Y".data).1 =
      (parseSongLinkNames "Song X - Artist Y".data "Artist Y".data).1 := by
  have hD : trimSpace (replaceAll (trimSpace "Song X - Artist Y".data)
      (trimSpace "Artist Y".data) []) = "Song X -".data := by decide
  refine ⟨(c11_artist_and_title_trimmed "Cool Track".data "Artist Y".data).2.1
    (Or.inr (Or.inr (Or.inr (Or.inr (Or.inr (by decide)))))),
    (c11_artist_and_title_trimmed "Song X - Artist Y".data "Artist Y".data).2.2 ?_ ?_⟩
  · intro c h
    rw [hD] at h
    simp [hasPrefix] at h
  · intro c h
    rw [hD] at h
    simp [hasSuffix] at h
    subst h
    decide

/-! ## C12 -/

/-- C12, what the code does on a page whose first container has an artist
child only and whose second container has a title child only: there is no
og:title, no container has both a title child and an artist child, and yet the
combined text "Title Two by Artist One" is produced, the artist kept from the
first container and the title taken from the second. -/
theorem c12_artist_from_earlier_container :
    (traverseMetaTags docTwoContainers ⟨[], []⟩).ogTitleFull = [] ∧
    parseSongLinkHTMLTitle docTwoContainers = "Title Two by Artist One".data ∧
    hasContainerWithBoth docTwoContainers = false := by
  decide

/-! ## C13 -/

/-- C13: on every title and author the extraction of `parseSongLink` equals
the extraction with the suffix strip of lines 122-124 removed; the artist
before the strip contains no "Topic" (taken from the author) or no " - "
(taken from before the first " - " of the title, or empty), so it never ends
with " - Topic". -/
theorem c13_topic_strip_changes_nothing (title authorName : Str) :
    parseSongLinkNames title authorName = parseSongLinkNamesNoStrip title authorName ∧
    (contains (parseSongLinkNamesNoStrip title authorName).2 "Topic".data = false ∨
      contains (parseSongLinkNamesNoStrip title authorName).2 " - ".data = false) ∧
    hasSuffix (parseSongLinkNamesNoStrip title authorName).2 " - Topic".data = false := by
  have hor := artist_no_topic_or_no_dash (trimSpace title) (trimSpace authorName)
  refine ⟨?_, hor, ?_⟩
  · unfold parseSongLinkNames parseSongLinkNamesNoStrip
    show (_, if _ then trimSuffix _ _ else _) = _
    rw [artist_strip_noop, ite_self]
  · show hasSuffix (splitTitleArtist (trimSpace title) (trimSpace authorName)).2
      " - Topic".data = false
    rw [Bool.eq_false_iff]
    intro hs
    have hsuf := ((hasSuffix_iff _ _).1 hs).isInfix
    rcases hor with h | h
    · exact (contains_eq_false_iff _ _).1 h
        ((show "Topic".data <:+: " - Topic".data by decide).trans hsuf)
    · exact (contains_eq_false_iff _ _).1 h
        ((show " - ".data <:+: " - Topic".data by decide).trans hsuf)

end TgCircleGen
